import Mathlib

/-!
Verification development for the dax-rust repository: a shallow embedding of
the Value model (`src/src/types.rs`), the runtime tokenizer
(`src/dax-macro-impl/src/lib.rs`, `tokenize`), and the Table aggregate
operations and DAX evaluator (`src/src/table.rs`), together with theorems
settling the specification claims about them.

Modelling conventions:
- `f64` is modelled by the inductive `Dax.F64`: NaNs (with payload bits),
  the two infinities, the two signed zeros, and nonzero finite values carried
  as exact rationals.  IEEE rounding and overflow of finite arithmetic are
  abstracted to exact rational arithmetic; none of the claims proved below
  depends on rounding.  Signed-zero and NaN behaviour, which several claims
  do depend on, is modelled exactly.
- Hashing is modelled by the value written into the hasher state
  (`Hasher::write_u8` / `write_u64` / the string hash); two Values get the
  same hash exactly when they feed identical data to the hasher.
-/

namespace Dax

/-- Model of Rust `f64`: NaN (payload distinguishes bit patterns), the two
infinities, the two signed zeros, and nonzero finite values as exact
rationals. -/
inductive F64 where
  | nan (payload : Nat)
  | inf (pos : Bool)
  | zero (pos : Bool)
  | fin (q : ℚ)
deriving DecidableEq, Repr

/-- Rust `f64::is_nan`. -/
def F64.isNan : F64 → Bool
  | .nan _ => true
  | _ => false

/-- Rust `f64::is_infinite`. -/
def F64.isInfinite : F64 → Bool
  | .inf _ => true
  | _ => false

/-- Rust `f64::is_sign_positive` (the source only calls it on infinities). -/
def F64.isSignPositive : F64 → Bool
  | .nan _ => true
  | .inf p => p
  | .zero p => p
  | .fin q => decide (0 ≤ q)

/-- Rational value of a finite `F64` (zeros and nonzero finite values). -/
def F64.finQ : F64 → ℚ
  | .zero _ => 0
  | .fin q => q
  | _ => 0

/-- Whether this is the negative zero `-0.0`. -/
def F64.isNegZero : F64 → Bool
  | .zero false => true
  | _ => false

/-- IEEE `==` on `f64`: NaN is equal to nothing, the two signed zeros are
equal, and otherwise values are compared as numbers. -/
def F64.feq : F64 → F64 → Bool
  | .nan _, _ => false
  | _, .nan _ => false
  | .inf p, .inf q => p == q
  | .inf _, _ => false
  | _, .inf _ => false
  | x, y => decide (x.finQ = y.finQ)

/-- Model of `f64::to_bits`.  The two zeros get their actual IEEE bit
patterns (`0` and `2^63`); nonzero finite values get an injective code offset
past every 64-bit pattern (the actual IEEE encoding is abstracted; the hash
claims only rely on distinct finite values having distinct bit patterns and
on the two zeros differing).  NaN and the infinities are never fed to
`to_bits` by the source's hash function. -/
def F64.toBits : F64 → Nat
  | .zero true => 0
  | .zero false => 2 ^ 63
  | .inf true => 0x7FF0000000000000
  | .inf false => 0xFFF0000000000000
  | .nan p => 0x7FF8000000000000 + p
  | .fin q => 2 ^ 64 + Nat.pair (Int.natAbs (2 * q.num) + (if 0 ≤ q.num then 0 else 1)) q.den

/-- IEEE addition on the model: NaN propagates, opposite infinities give NaN,
an infinity absorbs finite values, finite addition is exact, and an exactly
zero finite result is `-0.0` only when both addends are `-0.0`. -/
def F64.add (a b : F64) : F64 :=
  match a, b with
  | .nan p, _ => .nan p
  | _, .nan p => .nan p
  | .inf p, .inf q => if p = q then .inf p else .nan 0
  | .inf p, _ => .inf p
  | _, .inf p => .inf p
  | x, y =>
    let s := x.finQ + y.finQ
    if s = 0 then
      if x.isNegZero && y.isNegZero then .zero false else .zero true
    else .fin s

/-- Sign of a non-NaN value (`true` = positive or `+0`). -/
def F64.signPos : F64 → Bool
  | .nan _ => true
  | .inf p => p
  | .zero p => p
  | .fin q => decide (0 ≤ q)

/-- IEEE division on the model (the source divides a sum by a positive
integer count): NaN propagates, `inf/inf` and `0/0` give NaN, division by
zero gives a signed infinity, finite division is exact. -/
def F64.div (a b : F64) : F64 :=
  match a, b with
  | .nan p, _ => .nan p
  | _, .nan p => .nan p
  | .inf _, .inf _ => .nan 0
  | .inf p, y => .inf (p == y.signPos)
  | x, .inf q => .zero (x.signPos == q)
  | x, y =>
    if y.finQ = 0 then
      if x.finQ = 0 then .nan 0 else .inf (x.signPos == y.signPos)
    else
      let s := x.finQ / y.finQ
      if s = 0 then .zero (x.signPos == y.signPos) else .fin s

/-- Rust `f64::partial_cmp`: `none` when either side is NaN, otherwise the
total order on extended reals with the two zeros equal. -/
def F64.pcmp : F64 → F64 → Option Ordering
  | .nan _, _ => none
  | _, .nan _ => none
  | .inf true, .inf true => some .eq
  | .inf true, _ => some .gt
  | _, .inf true => some .lt
  | .inf false, .inf false => some .eq
  | .inf false, _ => some .lt
  | _, .inf false => some .gt
  | x, y =>
    if x.finQ < y.finQ then some .lt
    else if x.finQ = y.finQ then some .eq
    else some .gt

/-- The comparator closure `|a, b| a.partial_cmp(b).unwrap_or(Ordering::Equal)`
used by `Table::min` / `Table::max`. -/
def cmpOrEqual (a b : F64) : Ordering := (F64.pcmp a b).getD .eq

/-- The `Value` enum of `src/src/types.rs`. -/
inductive Value where
  | Number (n : F64)
  | Text (s : String)
  | Boolean (b : Bool)
  | Null
deriving DecidableEq, Repr

/-- The custom `PartialEq` implementation for `Value` (`src/src/types.rs`,
lines 13-29): two Numbers are equal when both are NaN, or by float `==`;
Text/Boolean compare structurally, Null equals Null, and cross-variant
comparisons are unequal. -/
def Value.beq : Value → Value → Bool
  | .Number a, .Number b => if a.isNan && b.isNan then true else F64.feq a b
  | .Text a, .Text b => a == b
  | .Boolean a, .Boolean b => a == b
  | .Null, .Null => true
  | _, _ => false

/-- Data fed into the `Hasher` state by one `Value` (`write_u8` sentinel,
`write_u64` bit pattern, or a string's own hash data).  Rust `bool` hashes as
`write_u8(b as u8)`. -/
inductive HashWrite where
  | u8 (n : Nat)
  | u64 (n : Nat)
  | str (s : String)
deriving DecidableEq, Repr

/-- The custom `Hash` implementation for `Value` (`src/src/types.rs`, lines
35-58): NaN writes the sentinel byte 0, `+inf` writes 1, `-inf` writes 2,
every other Number writes its 64 bit pattern, Text hashes the string,
Boolean writes its byte, Null writes the sentinel byte 3. -/
def Value.hashWrite : Value → HashWrite
  | .Number n =>
    if n.isNan then .u8 0
    else if n.isInfinite then (if n.isSignPositive then .u8 1 else .u8 2)
    else .u64 n.toBits
  | .Text s => .str s
  | .Boolean b => .u8 (cond b 1 0)
  | .Null => .u8 3

/-- The `DaxToken` enum of `src/dax-macro-impl/src/lib.rs`. -/
inductive DaxToken where
  | Function (name : String)
  | Number (n : F64)
  | Operator (op : Char)
  | Column (name : String)
  | Comma
  | ParenOpen
  | ParenClose
  | Whitespace
deriving DecidableEq, Repr

/-- Continuation test inside the number branch: `d.is_digit(10) || d == '.'`. -/
def isNumChar (c : Char) : Bool := c.isDigit || c == '.'

/-- The `'A'..='Z' | 'a'..='z'` match guard that opens a Function token. -/
def isAsciiLetter (c : Char) : Bool := ('A' ≤ c && c ≤ 'Z') || ('a' ≤ c && c ≤ 'z')

/-- Rust `char::is_alphabetic`, the continuation test inside the function-name
branch (modelled on its ASCII fragment; no claim probes non-ASCII letters). -/
def isAlphabetic (c : Char) : Bool := c.isAlpha

/-- Value of a run of decimal digits. -/
def digitsToNat (cs : List Char) : Nat := cs.foldl (fun acc c => 10 * acc + (c.toNat - 48)) 0

/-- Model of Rust `f64::from_str` restricted to the digit/`.` runs the
tokenizer feeds it: the parse succeeds exactly when the run contains at least
one digit and at most one `.`, and yields the exact decimal value (IEEE
rounding of the literal is abstracted). -/
def parseFloat (cs : List Char) : Option ℚ :=
  if cs.all isNumChar && cs.any Char.isDigit && cs.count '.' ≤ 1 then
    let ip := cs.takeWhile (fun c => c ≠ '.')
    let fp := (cs.dropWhile (fun c => c ≠ '.')).drop 1
    some ((digitsToNat ip : ℚ) + (digitsToNat fp : ℚ) / (10 : ℚ) ^ fp.length)
  else none

/-- A parsed literal as an `F64` (nonnegative decimal literals parse to `+0.0`
when zero). -/
def qToF64 (q : ℚ) : F64 := if q = 0 then .zero true else .fin q

/-- One step of the `tokenize` scan loop (`src/dax-macro-impl/src/lib.rs`,
lines 55-127), written with explicit fuel so that the recursion is structural;
each step consumes at least one character, so `fuel = length of the input`
suffices (`tokenizeFuel_eq` below).  The branches follow the source's match
arms in order: a digit opens a maximal digit/`.` run which is parsed and
emitted only when the parse succeeds; `[` opens a Column read verbatim up to
`]` or end of input; `(`, `)`, `,` and the four operator characters emit their
tokens; each whitespace character emits one Whitespace token; an ASCII letter
opens a maximal alphabetic run emitted as a Function token; anything else is
silently consumed. -/
def tokenizeFuel : Nat → List Char → List DaxToken
  | 0, _ => []
  | _ + 1, [] => []
  | fuel + 1, c :: rest =>
    if c.isDigit then
      match parseFloat (c :: rest.takeWhile isNumChar) with
      | some n => .Number (qToF64 n) :: tokenizeFuel fuel (rest.dropWhile isNumChar)
      | none => tokenizeFuel fuel (rest.dropWhile isNumChar)
    else if c = '[' then
      .Column (String.mk (rest.takeWhile (fun d => d ≠ ']'))) ::
        tokenizeFuel fuel ((rest.dropWhile (fun d => d ≠ ']')).drop 1)
    else if c = '(' then .ParenOpen :: tokenizeFuel fuel rest
    else if c = ')' then .ParenClose :: tokenizeFuel fuel rest
    else if c = ',' then .Comma :: tokenizeFuel fuel rest
    else if c = '+' || c = '-' || c = '*' || c = '/' then .Operator c :: tokenizeFuel fuel rest
    else if c = ' ' || c = '\t' || c = '\n' || c = '\r' then .Whitespace :: tokenizeFuel fuel rest
    else if isAsciiLetter c then
      .Function (String.mk (c :: rest.takeWhile isAlphabetic)) ::
        tokenizeFuel fuel (rest.dropWhile isAlphabetic)
    else tokenizeFuel fuel rest

/-- `tokenize` on a character list. -/
def tokenizeList (cs : List Char) : List DaxToken := tokenizeFuel cs.length cs

/-- `tokenize(input: &str) -> Vec<DaxToken>` of `src/dax-macro-impl/src/lib.rs`. -/
def tokenize (input : String) : List DaxToken := tokenizeList input.toList

/-- The `Table` struct of `src/src/table.rs`: a map from column name to value
sequence.  The `HashMap` is modelled as an association list read through
`lookup`; `add_column` conses, which has `HashMap::insert`'s overwrite
semantics under `lookup`. -/
structure Table where
  columns : List (String × List Value)
deriving DecidableEq, Repr

/-- `Table::get_column`. -/
def Table.get_column (t : Table) (name : String) : Option (List Value) :=
  t.columns.lookup name

/-- `Table::add_column` (overwrites a same-named column). -/
def Table.add_column (t : Table) (name : String) (values : List Value) : Table :=
  ⟨(name, values) :: t.columns⟩

/-- The closure folded by `Table::sum`: add Number entries, skip the rest. -/
def sumStep (acc : F64) (v : Value) : F64 :=
  match v with
  | .Number n => F64.add acc n
  | _ => acc

/-- `Table::sum` (`src/src/table.rs`, lines 71-83): fold `+` over the Number
entries starting from `0.0`; `some` even when the sum is `0.0`, `none` only
when the column is missing. -/
def Table.sum (t : Table) (column_name : String) : Option F64 :=
  (t.get_column column_name).map (fun column => column.foldl sumStep (.zero true))

/-- The accumulator step of `Table::average`'s loop: running sum and count of
Number entries. -/
def avgStep (acc : F64 × Nat) (v : Value) : F64 × Nat :=
  match v with
  | .Number n => (F64.add acc.1 n, acc.2 + 1)
  | _ => acc

/-- `count as f64` (exact for the integer counts involved). -/
def natToF64 (n : Nat) : F64 := if n = 0 then .zero true else .fin n

/-- `Table::average` (`src/src/table.rs`, lines 86-103): sum and count the
Number entries; `sum / count as f64` when `count > 0`, else `Some(0.0)`. -/
def Table.average (t : Table) (column_name : String) : Option F64 :=
  (t.get_column column_name).map (fun column =>
    let p := column.foldl avgStep (.zero true, 0)
    if 0 < p.2 then F64.div p.1 (natToF64 p.2) else .zero true)

/-- `Table::count`: length of the column, every value kind included. -/
def Table.count (t : Table) (column_name : String) : Option Nat :=
  (t.get_column column_name).map List.length

/-- Membership test of the `HashSet<&Value>` built by `Table::distinctcount`:
a value is found in the set exactly when some element equals it under
`Value`'s `PartialEq` AND feeds the same data to the hasher — equal values
with different hashes occupy different buckets and are counted separately
(cf. the signed-zero inconsistency proved below). -/
def valueKeyEq (a b : Value) : Bool :=
  Value.beq a b && decide (Value.hashWrite a = Value.hashWrite b)

/-- Inserting one value into the modelled `HashSet`. -/
def hashInsert (acc : List Value) (v : Value) : List Value :=
  if acc.any (fun w => valueKeyEq w v) then acc else acc ++ [v]

/-- `Table::distinctcount` (`src/src/table.rs`, lines 109-114): collect the
column into a `HashSet` and take its size. -/
def Table.distinctcount (t : Table) (column_name : String) : Option Nat :=
  (t.get_column column_name).map (fun column => (column.foldl hashInsert []).length)

/-- The `filter_map` to Number entries used by `Table::min` / `Table::max`. -/
def numbersOf (column : List Value) : List F64 :=
  column.filterMap (fun v => match v with | .Number n => some n | _ => none)

/-- `Iterator::min_by` with the unwrap-or-Equal comparator: left reduce
keeping the earlier element on ties (`cmp::min_by` keeps its first argument
unless the comparison says Greater). -/
def minByF : List F64 → Option F64
  | [] => none
  | x :: xs => some (xs.foldl (fun acc y => if cmpOrEqual acc y = .gt then y else acc) x)

/-- `Iterator::max_by` with the unwrap-or-Equal comparator: left reduce
keeping the later element on ties (`cmp::max_by` returns its second argument
unless the comparison says Greater). -/
def maxByF : List F64 → Option F64
  | [] => none
  | x :: xs => some (xs.foldl (fun acc y => if cmpOrEqual acc y = .gt then acc else y) x)

/-- `Table::min` (`src/src/table.rs`, lines 117-130). -/
def Table.min (t : Table) (column_name : String) : Option F64 :=
  (t.get_column column_name).bind (fun column => minByF (numbersOf column))

/-- `Table::max` (`src/src/table.rs`, lines 133-146). -/
def Table.max (t : Table) (column_name : String) : Option F64 :=
  (t.get_column column_name).bind (fun column => maxByF (numbersOf column))

/-- The `DaxResult` enum of `src/src/table.rs` (lines 449-455). -/
inductive DaxResult where
  | Number (n : F64)
  | Text (s : String)
  | Boolean (b : Bool)
  | Error (msg : String)
deriving DecidableEq, Repr

/-- The inner `while let` loop shared by the five recognized arms of
`evaluate_dax`: scan the remaining tokens for the first Column token. -/
def findColumn : List DaxToken → Option String
  | [] => none
  | .Column name :: _ => some name
  | _ :: rest => findColumn rest

/-- The `return match self.sum(...)` of the SUM arm. -/
def sumResult (t : Table) (col_name : String) : DaxResult :=
  match t.sum col_name with
  | some s => .Number s
  | none => .Error ("Could not calculate SUM for column " ++ col_name)

/-- The `return match self.average(...)` of the AVERAGE arm. -/
def averageResult (t : Table) (col_name : String) : DaxResult :=
  match t.average col_name with
  | some avg => .Number avg
  | none => .Error ("Could not calculate AVERAGE for column " ++ col_name)

/-- The `return match self.min(...)` of the MIN arm. -/
def minResult (t : Table) (col_name : String) : DaxResult :=
  match t.min col_name with
  | some m => .Number m
  | none => .Error ("Could not calculate MIN for column " ++ col_name)

/-- The `return match self.max(...)` of the MAX arm. -/
def maxResult (t : Table) (col_name : String) : DaxResult :=
  match t.max col_name with
  | some m => .Number m
  | none => .Error ("Could not calculate MAX for column " ++ col_name)

/-- The `return match self.distinctcount(...)` of the DISTINCTCOUNT arm
(`dc as f64`). -/
def distinctcountResult (t : Table) (col_name : String) : DaxResult :=
  match t.distinctcount col_name with
  | some dc => .Number (natToF64 dc)
  | none => .Error ("Could not calculate DISTINCTCOUNT for column " ++ col_name)

/-- The token scan of `Table::evaluate_dax` (`src/src/table.rs`, lines
197-294).  Non-Function tokens are skipped.  A Function token with one of the
five recognized names hands the rest of the stream to the column scan: in the
source the inner `while let` loop consumes the shared iterator to its end, so
when no Column follows, the outer loop finds the iterator exhausted and the
generic error is returned — modelled here by returning it directly.  An
unrecognized name returns the `Unsupported function` error immediately. -/
def evalTokens (t : Table) : List DaxToken → DaxResult
  | [] => .Error "Invalid or unsupported DAX expression"
  | .Function name :: rest =>
    if name = "SUM" then
      match findColumn rest with
      | some col => sumResult t col
      | none => .Error "Invalid or unsupported DAX expression"
    else if name = "AVERAGE" then
      match findColumn rest with
      | some col => averageResult t col
      | none => .Error "Invalid or unsupported DAX expression"
    else if name = "MIN" then
      match findColumn rest with
      | some col => minResult t col
      | none => .Error "Invalid or unsupported DAX expression"
    else if name = "MAX" then
      match findColumn rest with
      | some col => maxResult t col
      | none => .Error "Invalid or unsupported DAX expression"
    else if name = "DISTINCTCOUNT" then
      match findColumn rest with
      | some col => distinctcountResult t col
      | none => .Error "Invalid or unsupported DAX expression"
    else .Error ("Unsupported function: " ++ name)
  | _ :: rest => evalTokens t rest

/-- `Table::evaluate_dax`: tokenize, then scan. -/
def Table.evaluate_dax (t : Table) (expression : String) : DaxResult :=
  evalTokens t (tokenize expression)

/-- Dispatch of one recognized function name on one column name, as the
claims describe it: the matching table operation's result (specification
vocabulary used to state the evaluator claims; `evalTokens` is proved equal
to it on the located function/column pair). -/
def dispatchFive (t : Table) (name col : String) : DaxResult :=
  if name = "SUM" then sumResult t col
  else if name = "AVERAGE" then averageResult t col
  else if name = "MIN" then minResult t col
  else if name = "MAX" then maxResult t col
  else if name = "DISTINCTCOUNT" then distinctcountResult t col
  else .Error ("Unsupported function: " ++ name)

/-- Whether a token is a Function token (specification vocabulary). -/
def DaxToken.isFunction : DaxToken → Bool
  | .Function _ => true
  | _ => false

/-- Whether a token is a Column token (specification vocabulary). -/
def DaxToken.isColumn : DaxToken → Bool
  | .Column _ => true
  | _ => false

/-- Example column A = [1.0, 2.0] used by the concrete evaluator facts. -/
def exColA : List Value := [.Number (.fin 1), .Number (.fin 2)]

/-- Example column B = [3.0] used by the concrete evaluator facts. -/
def exColB : List Value := [.Number (.fin 3)]

/-- Example table with columns A and B. -/
def exTable : Table := ⟨[("A", exColA), ("B", exColB)]⟩

/-- Table holding the column [NaN, NaN, +inf, -inf] of the distinct-count
claim (the two NaNs carry different payload bits). -/
def nanTable : Table :=
  ⟨[("C", [.Number (.nan 0), .Number (.nan 1), .Number (.inf true), .Number (.inf false)])]⟩

/-! Theorems.  Helper lemmas come first; each claim is settled by the single
theorem named in its doc comment, with closed witnesses where the theorem has
hypotheses. -/

theorem length_dropWhile_le (p : Char → Bool) (l : List Char) :
    (l.dropWhile p).length ≤ l.length := by
  induction l with
  | nil => simp [List.dropWhile]
  | cons c rest ih =>
    by_cases h : p c
    · simp only [List.dropWhile, h]
      exact Nat.le_trans ih (Nat.le_succ _)
    · simp [List.dropWhile, h]

/-- The scan consumes at least one character per step, so any fuel at least
the length of the input produces the same token stream. -/
theorem tokenizeFuel_eq : ∀ (f g : Nat) (cs : List Char), cs.length ≤ f → cs.length ≤ g →
    tokenizeFuel f cs = tokenizeFuel g cs := by
  intro f
  induction f with
  | zero =>
    intro g cs hf _
    have hcs : cs = [] := List.eq_nil_of_length_eq_zero (Nat.le_zero.mp hf)
    subst hcs
    cases g <;> simp [tokenizeFuel]
  | succ f ih =>
    intro g cs hf hg
    cases cs with
    | nil => cases g <;> simp [tokenizeFuel]
    | cons c rest =>
      cases g with
      | zero => simp at hg
      | succ g =>
        have hr : rest.length ≤ f := by simpa using hf
        have hrg : rest.length ≤ g := by simpa using hg
        have hnum : (rest.dropWhile isNumChar).length ≤ rest.length :=
          length_dropWhile_le _ _
        have hcol : ((rest.dropWhile (fun d => d ≠ ']')).drop 1).length ≤ rest.length := by
          have := length_dropWhile_le (fun d => decide (d ≠ ']')) rest
          simp only [List.length_drop]
          omega
        have halpha : (rest.dropWhile isAlphabetic).length ≤ rest.length :=
          length_dropWhile_le _ _
        simp only [tokenizeFuel]
        split_ifs
        · cases hp : parseFloat (c :: rest.takeWhile isNumChar) with
          | some n => rw [ih g _ (le_trans hnum hr) (le_trans hnum hrg)]
          | none => rw [ih g _ (le_trans hnum hr) (le_trans hnum hrg)]
        · rw [ih g _ (le_trans hcol hr) (le_trans hcol hrg)]
        · rw [ih g rest hr hrg]
        · rw [ih g rest hr hrg]
        · rw [ih g rest hr hrg]
        · rw [ih g rest hr hrg]
        · rw [ih g rest hr hrg]
        · rw [ih g _ (le_trans halpha hr) (le_trans halpha hrg)]
        · exact ih g rest hr hrg

theorem tokenizeList_fuel (f : Nat) (cs : List Char) (h : cs.length ≤ f) :
    tokenizeFuel f cs = tokenizeList cs :=
  tokenizeFuel_eq f cs.length cs h le_rfl

/-- Claim C2 (amended): a number run starts only at a digit.  Whenever the
tokenizer encounters a digit it accumulates the maximal run of digit/`.`
characters and, if that run parses as a float, emits exactly one Number token
with that value; if the accumulated text fails to parse as a float, no token
is emitted for the run and its characters are silently consumed with no
error.  A `.` encountered outside such a run does not start a number: it is
silently skipped with no token. -/
theorem tokenize_number_run (c : Char) (rest : List Char) :
    (c.isDigit = true →
      tokenizeList (c :: rest) =
        (match parseFloat (c :: rest.takeWhile isNumChar) with
         | some v => [DaxToken.Number (qToF64 v)]
         | none => []) ++ tokenizeList (rest.dropWhile isNumChar)) ∧
    (c = '.' → tokenizeList (c :: rest) = tokenizeList rest) := by
  constructor
  · intro h
    show tokenizeFuel (c :: rest).length (c :: rest) = _
    simp only [List.length_cons, tokenizeFuel, h, if_pos]
    rw [tokenizeList_fuel rest.length _ (length_dropWhile_le _ _)]
    cases hp : parseFloat (c :: rest.takeWhile isNumChar) <;> simp
  · intro h
    subst h
    show tokenizeFuel ('.' :: rest).length ('.' :: rest) = _
    simp only [List.length_cons, tokenizeFuel]
    rw [if_neg (by decide), if_neg (by decide), if_neg (by decide), if_neg (by decide),
      if_neg (by decide), if_neg (by decide), if_neg (by decide), if_neg (by decide)]
    rfl

/-- Claim C2 counterexample: on the input `".5"` the tokenizer encounters the
`.` first; the maximal digit/`.` run there is `".5"`, which does parse as the
float `0.5`, yet no Number token carrying `0.5` is emitted — the `.` is
silently skipped by the catch-all arm and the digit `5` then lexes as the
number `5.0`, refuting the claim that a run accumulates whenever a digit *or
`.`* is encountered. -/
theorem tokenize_dot_run_cex :
    parseFloat (String.toList ".5") = some (1 / 2 : ℚ) ∧
    tokenize ".5" ≠ [DaxToken.Number (qToF64 (1 / 2))] ∧
    tokenize ".5" = [DaxToken.Number (.fin 5)] := by
  with_unfolding_all decide

/-- Witness for the amended C2 theorem at the concrete run `"1.2.3"` (two
dots, so the parse fails and the whole run is consumed without a token). -/
theorem tokenize_number_run_witness :
    ('1' : Char).isDigit = true ∧
    tokenizeList ('1' :: String.toList ".2.3") =
      (match parseFloat ('1' :: (String.toList ".2.3").takeWhile isNumChar) with
       | some v => [DaxToken.Number (qToF64 v)]
       | none => []) ++ tokenizeList ((String.toList ".2.3").dropWhile isNumChar) :=
  ⟨by decide, (tokenize_number_run '1' (String.toList ".2.3")).1 (by decide)⟩

/-- The outer scan skips every non-Function token. -/
theorem evalTokens_skip (t : Table) (pre ts : List DaxToken)
    (h : ∀ tok ∈ pre, tok.isFunction = false) :
    evalTokens t (pre ++ ts) = evalTokens t ts := by
  induction pre with
  | nil => rfl
  | cons tok pre ih =>
    have h0 : tok.isFunction = false := h tok (by simp)
    have hrest : ∀ x ∈ pre, x.isFunction = false := fun x hx => h x (by simp [hx])
    cases tok <;>
      first
        | exact Bool.noConfusion h0
        | (simp only [List.cons_append, evalTokens]; exact ih hrest)

/-- The inner scan returns the first Column token. -/
theorem findColumn_skip (before suffix : List DaxToken) (col : String)
    (h : ∀ tok ∈ before, tok.isColumn = false) :
    findColumn (before ++ DaxToken.Column col :: suffix) = some col := by
  induction before with
  | nil => rfl
  | cons tok before ih =>
    have h0 : tok.isColumn = false := h tok (by simp)
    have hrest : ∀ x ∈ before, x.isColumn = false := fun x hx => h x (by simp [hx])
    cases tok <;>
      first
        | exact Bool.noConfusion h0
        | (simp only [List.cons_append, findColumn]; exact ih hrest)

/-- The inner scan finds nothing in a Column-free stream. -/
theorem findColumn_none (rest : List DaxToken) (h : ∀ tok ∈ rest, tok.isColumn = false) :
    findColumn rest = none := by
  induction rest with
  | nil => rfl
  | cons tok rest ih =>
    have h0 : tok.isColumn = false := h tok (by simp)
    have hrest : ∀ x ∈ rest, x.isColumn = false := fun x hx => h x (by simp [hx])
    cases tok <;>
      first
        | exact Bool.noConfusion h0
        | (simp only [findColumn]; exact ih hrest)

/-- Claim C3: when the first Function token carries one of the five
recognized names and a Column token occurs later, the evaluator dispatches
the matching table operation on the first such column name and returns that
result immediately; the arbitrary `suffix` after the located Column is never
inspected.  In particular `SUM([A]) / SUM([B])` over the example table
evaluates only `SUM([A])` (= 3.0). -/
theorem evaluate_first_pair_only (t : Table) (pre before suffix : List DaxToken)
    (name col : String)
    (hpre : ∀ tok ∈ pre, tok.isFunction = false)
    (hbefore : ∀ tok ∈ before, tok.isColumn = false)
    (hname : name = "SUM" ∨ name = "AVERAGE" ∨ name = "MIN" ∨ name = "MAX" ∨
      name = "DISTINCTCOUNT") :
    evalTokens t (pre ++ DaxToken.Function name :: (before ++ DaxToken.Column col :: suffix)) =
      dispatchFive t name col ∧
    exTable.evaluate_dax "SUM([A]) / SUM([B])" = DaxResult.Number (.fin 3) := by
  refine ⟨?_, by with_unfolding_all decide⟩
  rw [evalTokens_skip t pre _ hpre]
  have hfc := findColumn_skip before suffix col hbefore
  rcases hname with h | h | h | h | h <;> subst h <;> simp [evalTokens, dispatchFive, hfc]

/-- Witness for C3: the token stream of `SUM([A]) / SUM([B])` itself,
decomposed around its first function/column pair. -/
theorem evaluate_first_pair_only_witness :
    evalTokens exTable
      ([] ++ DaxToken.Function "SUM" ::
        ([DaxToken.ParenOpen] ++ DaxToken.Column "A" ::
          [DaxToken.ParenClose, DaxToken.Whitespace, DaxToken.Operator '/',
            DaxToken.Whitespace, DaxToken.Function "SUM", DaxToken.ParenOpen,
            DaxToken.Column "B", DaxToken.ParenClose])) =
      dispatchFive exTable "SUM" "A" :=
  (evaluate_first_pair_only exTable [] [DaxToken.ParenOpen] _ "SUM" "A"
    (by simp) (by simp [DaxToken.isColumn]) (Or.inl rfl)).1

/-- Claim C8: a first Function token whose name is not one of the five
recognized names makes the evaluator return the `Unsupported function` error
immediately, whatever tokens follow; in particular DIVIDE is unsupported. -/
theorem evaluate_unsupported_function (t : Table) (pre rest : List DaxToken) (name : String)
    (hpre : ∀ tok ∈ pre, tok.isFunction = false)
    (hname : name ∉ (["SUM", "AVERAGE", "MIN", "MAX", "DISTINCTCOUNT"] : List String)) :
    evalTokens t (pre ++ DaxToken.Function name :: rest) =
      DaxResult.Error ("Unsupported function: " ++ name) ∧
    exTable.evaluate_dax "DIVIDE([A],[B])" = DaxResult.Error "Unsupported function: DIVIDE" := by
  refine ⟨?_, by with_unfolding_all decide⟩
  rw [evalTokens_skip t pre _ hpre]
  simp only [List.mem_cons, List.mem_singleton, not_or] at hname
  obtain ⟨h1, h2, h3, h4, h5, -⟩ := hname
  simp [evalTokens, h1, h2, h3, h4, h5]

/-- Witness for C8 at the DIVIDE token stream. -/
theorem evaluate_unsupported_function_witness :
    evalTokens exTable
      ([DaxToken.Whitespace] ++ DaxToken.Function "DIVIDE" ::
        [DaxToken.ParenOpen, DaxToken.Column "A", DaxToken.Comma, DaxToken.Column "B",
          DaxToken.ParenClose]) =
      DaxResult.Error ("Unsupported function: " ++ "DIVIDE") :=
  (evaluate_unsupported_function exTable [DaxToken.Whitespace] _ "DIVIDE"
    (by simp [DaxToken.isFunction]) (by decide)).1

/-- Claim C9: the generic `Invalid or unsupported DAX expression` error is
returned when the token stream holds no Function token at all, and likewise
when the first Function token is recognized but no Column token follows it
before the input ends. -/
theorem evaluate_generic_error (t : Table) (ts pre rest : List DaxToken) (name : String) :
    ((∀ tok ∈ ts, tok.isFunction = false) →
      evalTokens t ts = DaxResult.Error "Invalid or unsupported DAX expression") ∧
    ((∀ tok ∈ pre, tok.isFunction = false) →
      (name = "SUM" ∨ name = "AVERAGE" ∨ name = "MIN" ∨ name = "MAX" ∨
        name = "DISTINCTCOUNT") →
      (∀ tok ∈ rest, tok.isColumn = false) →
      evalTokens t (pre ++ DaxToken.Function name :: rest) =
        DaxResult.Error "Invalid or unsupported DAX expression") := by
  constructor
  · intro h
    have := evalTokens_skip t ts [] h
    rw [List.append_nil] at this
    rw [this]
    rfl
  · intro hpre hname hrest
    rw [evalTokens_skip t pre _ hpre]
    have hfc := findColumn_none rest hrest
    rcases hname with h | h | h | h | h <;> subst h <;> simp [evalTokens, hfc]

/-- Witness for C9: a Function-free stream, and a recognized SUM with no
Column after it, both over the example table. -/
theorem evaluate_generic_error_witness :
    evalTokens exTable [DaxToken.Whitespace, DaxToken.Operator '+'] =
      DaxResult.Error "Invalid or unsupported DAX expression" ∧
    evalTokens exTable
      ([] ++ DaxToken.Function "SUM" :: [DaxToken.ParenOpen, DaxToken.ParenClose]) =
      DaxResult.Error "Invalid or unsupported DAX expression" :=
  ⟨(evaluate_generic_error exTable [DaxToken.Whitespace, DaxToken.Operator '+'] [] [] "SUM").1
      (by simp [DaxToken.isFunction]),
    (evaluate_generic_error exTable [] [] [DaxToken.ParenOpen, DaxToken.ParenClose] "SUM").2
      (by simp) (Or.inl rfl) (by simp [DaxToken.isColumn])⟩

/-- Every branch of the scan produces a Number or an Error. -/
theorem evalTokens_number_or_error (t : Table) (ts : List DaxToken) :
    (∃ n, evalTokens t ts = DaxResult.Number n) ∨
      (∃ msg, evalTokens t ts = DaxResult.Error msg) := by
  induction ts with
  | nil => exact Or.inr ⟨_, rfl⟩
  | cons tok rest ih =>
    cases tok with
    | Function name =>
      have harm : ∀ r : Table → String → DaxResult,
          (∀ col, (∃ n, r t col = DaxResult.Number n) ∨
            (∃ msg, r t col = DaxResult.Error msg)) →
          (∃ n, (match findColumn rest with
                 | some col => r t col
                 | none => DaxResult.Error "Invalid or unsupported DAX expression") =
              DaxResult.Number n) ∨
          (∃ msg, (match findColumn rest with
                 | some col => r t col
                 | none => DaxResult.Error "Invalid or unsupported DAX expression") =
              DaxResult.Error msg) := by
        intro r hr
        cases findColumn rest with
        | none => exact Or.inr ⟨_, rfl⟩
        | some col => exact hr col
      have hsum : ∀ col, (∃ n, sumResult t col = DaxResult.Number n) ∨
          (∃ msg, sumResult t col = DaxResult.Error msg) := by
        intro col
        unfold sumResult
        cases t.sum col with
        | none => exact Or.inr ⟨_, rfl⟩
        | some s => exact Or.inl ⟨s, rfl⟩
      have havg : ∀ col, (∃ n, averageResult t col = DaxResult.Number n) ∨
          (∃ msg, averageResult t col = DaxResult.Error msg) := by
        intro col
        unfold averageResult
        cases t.average col with
        | none => exact Or.inr ⟨_, rfl⟩
        | some s => exact Or.inl ⟨s, rfl⟩
      have hmin : ∀ col, (∃ n, minResult t col = DaxResult.Number n) ∨
          (∃ msg, minResult t col = DaxResult.Error msg) := by
        intro col
        unfold minResult
        cases t.min col with
        | none => exact Or.inr ⟨_, rfl⟩
        | some s => exact Or.inl ⟨s, rfl⟩
      have hmax : ∀ col, (∃ n, maxResult t col = DaxResult.Number n) ∨
          (∃ msg, maxResult t col = DaxResult.Error msg) := by
        intro col
        unfold maxResult
        cases t.max col with
        | none => exact Or.inr ⟨_, rfl⟩
        | some s => exact Or.inl ⟨s, rfl⟩
      have hdc : ∀ col, (∃ n, distinctcountResult t col = DaxResult.Number n) ∨
          (∃ msg, distinctcountResult t col = DaxResult.Error msg) := by
        intro col
        unfold distinctcountResult
        cases t.distinctcount col with
        | none => exact Or.inr ⟨_, rfl⟩
        | some s => exact Or.inl ⟨_, rfl⟩
      simp only [evalTokens]
      by_cases h1 : name = "SUM"
      · simp only [h1, if_pos]
        exact harm sumResult hsum
      · simp only [h1, if_false]
        by_cases h2 : name = "AVERAGE"
        · simp only [h2, if_pos]
          exact harm averageResult havg
        · simp only [h2, if_false]
          by_cases h3 : name = "MIN"
          · simp only [h3, if_pos]
            exact harm minResult hmin
          · simp only [h3, if_false]
            by_cases h4 : name = "MAX"
            · simp only [h4, if_pos]
              exact harm maxResult hmax
            · simp only [h4, if_false]
              by_cases h5 : name = "DISTINCTCOUNT"
              · simp only [h5, if_pos]
                exact harm distinctcountResult hdc
              · simp only [h5, if_false]
                exact Or.inr ⟨_, rfl⟩
    | Number n => exact ih
    | Operator op => exact ih
    | Column name => exact ih
    | Comma => exact ih
    | ParenOpen => exact ih
    | ParenClose => exact ih
    | Whitespace => exact ih

/-- Claim C10: every evaluation returns a Number or an Error; the Text and
Boolean variants of `DaxResult` are never produced, and DISTINCTCOUNT's
integer count comes back converted to a Number (2 distinct values in the
example column A). -/
theorem evaluate_only_number_or_error (t : Table) (expression : String) :
    ((∃ n, t.evaluate_dax expression = DaxResult.Number n) ∨
      (∃ msg, t.evaluate_dax expression = DaxResult.Error msg)) ∧
    (∀ s, t.evaluate_dax expression ≠ DaxResult.Text s) ∧
    (∀ b, t.evaluate_dax expression ≠ DaxResult.Boolean b) ∧
    exTable.evaluate_dax "DISTINCTCOUNT([A])" = DaxResult.Number (natToF64 2) := by
  have hshape := evalTokens_number_or_error t (tokenize expression)
  refine ⟨hshape, ?_, ?_, by with_unfolding_all decide⟩
  · intro s h
    rcases hshape with ⟨n, hn⟩ | ⟨msg, hm⟩
    · rw [Table.evaluate_dax] at h
      rw [hn] at h
      exact DaxResult.noConfusion h
    · rw [Table.evaluate_dax] at h
      rw [hm] at h
      exact DaxResult.noConfusion h
  · intro b h
    rcases hshape with ⟨n, hn⟩ | ⟨msg, hm⟩
    · rw [Table.evaluate_dax] at h
      rw [hn] at h
      exact DaxResult.noConfusion h
    · rw [Table.evaluate_dax] at h
      rw [hm] at h
      exact DaxResult.noConfusion h

/-- Witness for C10 at a concrete table and expression. -/
theorem evaluate_only_number_or_error_witness :
    ((∃ n, exTable.evaluate_dax "SUM([A])" = DaxResult.Number n) ∨
      (∃ msg, exTable.evaluate_dax "SUM([A])" = DaxResult.Error msg)) ∧
    (∀ s, exTable.evaluate_dax "SUM([A])" ≠ DaxResult.Text s) ∧
    (∀ b, exTable.evaluate_dax "SUM([A])" ≠ DaxResult.Boolean b) ∧
    exTable.evaluate_dax "DISTINCTCOUNT([A])" = DaxResult.Number (natToF64 2) :=
  evaluate_only_number_or_error exTable "SUM([A])"

/-- Folding `sumStep` over a column is the fold of `+` over its Number
entries. -/
theorem sumFold_eq (column : List Value) : ∀ a : F64,
    column.foldl sumStep a = (numbersOf column).foldl F64.add a := by
  induction column with
  | nil => intro a; rfl
  | cons v rest ih =>
    intro a
    cases v <;> simp [sumStep, numbersOf, List.filterMap_cons, ih]

/-- The pair fold of `Table::average`'s loop computes `Table::sum`'s fold and
the count of Number entries. -/
theorem avgFold_eq (column : List Value) : ∀ (a : F64) (k : Nat),
    column.foldl avgStep (a, k) = (column.foldl sumStep a, k + (numbersOf column).length) := by
  induction column with
  | nil => intro a k; simp [numbersOf]
  | cons v rest ih =>
    intro a k
    cases v <;> simp [avgStep, sumStep, numbersOf, List.filterMap_cons, ih]
    omega

/-- Claim C5: given that column C exists, `sum(C)` is exactly the left fold
of floating-point addition over the Number entries of C starting from `0.0`
(hence `0.0` when there are no Number entries), and `sum` is absent exactly
for missing columns. -/
theorem sum_spec (t : Table) (name : String) (column : List Value)
    (h : t.get_column name = some column) :
    t.sum name = some ((numbersOf column).foldl F64.add (F64.zero true)) ∧
    (numbersOf column = [] → t.sum name = some (F64.zero true)) ∧
    (∀ other, t.sum other = none ↔ t.get_column other = none) := by
  refine ⟨?_, ?_, ?_⟩
  · simp [Table.sum, h, sumFold_eq]
  · intro he
    simp [Table.sum, h, sumFold_eq, he]
  · intro other
    simp [Table.sum, Option.map_eq_none']

/-- Witness for C5 at the example table. -/
theorem sum_spec_witness :
    exTable.sum "A" = some ((numbersOf exColA).foldl F64.add (F64.zero true)) ∧
    (numbersOf exColA = [] → exTable.sum "A" = some (F64.zero true)) ∧
    (∀ other, exTable.sum other = none ↔ exTable.get_column other = none) :=
  sum_spec exTable "A" exColA (by with_unfolding_all decide)

/-- Claim C4: given that column C exists, `average(C)` equals `sum(C)`
divided by the count of Number entries whenever that count is positive, and
equals `0.0` (still a present result) when the count is zero. -/
theorem average_spec (t : Table) (name : String) (column : List Value)
    (h : t.get_column name = some column) :
    (0 < (numbersOf column).length →
      ∃ s, t.sum name = some s ∧
        t.average name = some (F64.div s (natToF64 (numbersOf column).length))) ∧
    ((numbersOf column).length = 0 → t.average name = some (F64.zero true)) := by
  constructor
  · intro hpos
    refine ⟨column.foldl sumStep (F64.zero true), by simp [Table.sum, h], ?_⟩
    simp [Table.average, h, avgFold_eq, hpos]
  · intro hz
    simp [Table.average, h, avgFold_eq, hz]

/-- Witness for C4 at the example table (sum 3.0, count 2, average 1.5). -/
theorem average_spec_witness :
    ∃ s, exTable.sum "A" = some s ∧
      exTable.average "A" = some (F64.div s (natToF64 (numbersOf exColA).length)) :=
  (average_spec exTable "A" exColA (by with_unfolding_all decide)).1
    (by with_unfolding_all decide)

/-- Claim C6: given that column C exists, `min(C)` and `max(C)` are absent
exactly when C has no Number entries, and with at least one Number entry they
are the left reduce of the Number entries under the NaN-as-Equal comparator
(`min` keeps the earlier element unless the comparison says Greater, `max`
the later one). -/
theorem min_max_spec (t : Table) (name : String) (column : List Value)
    (h : t.get_column name = some column) :
    (t.min name = none ↔ numbersOf column = []) ∧
    (t.max name = none ↔ numbersOf column = []) ∧
    (∀ x xs, numbersOf column = x :: xs →
      t.min name =
        some (xs.foldl (fun acc y => if cmpOrEqual acc y = .gt then y else acc) x) ∧
      t.max name =
        some (xs.foldl (fun acc y => if cmpOrEqual acc y = .gt then acc else y) x)) := by
  refine ⟨?_, ?_, ?_⟩
  · cases hn : numbersOf column <;> simp [Table.min, h, minByF, hn]
  · cases hn : numbersOf column <;> simp [Table.max, h, maxByF, hn]
  · intro x xs hxs
    constructor
    · simp [Table.min, h, minByF, hxs]
    · simp [Table.max, h, maxByF, hxs]

/-- Witness for C6 at the example table: column A filters to [1.0, 2.0], so
min reduces to 1.0 and max to 2.0. -/
theorem min_max_spec_witness :
    exTable.min "A" =
      some ([F64.fin 2].foldl (fun acc y => if cmpOrEqual acc y = .gt then y else acc)
        (F64.fin 1)) ∧
    exTable.max "A" =
      some ([F64.fin 2].foldl (fun acc y => if cmpOrEqual acc y = .gt then acc else y)
        (F64.fin 1)) :=
  (min_max_spec exTable "A" exColA (by with_unfolding_all decide)).2.2
    (F64.fin 1) [F64.fin 2] (by with_unfolding_all decide)

/-- The set-membership relation of `distinctcount` is reflexive. -/
theorem valueKeyEq_refl (v : Value) : valueKeyEq v v = true := by
  cases v with
  | Number n =>
    cases n <;> simp [valueKeyEq, Value.beq, F64.isNan, F64.feq, F64.finQ, Value.hashWrite]
  | Text s => simp [valueKeyEq, Value.beq]
  | Boolean b => simp [valueKeyEq, Value.beq]
  | Null => simp [valueKeyEq, Value.beq]

/-- Invariant of the `HashSet` collection fold: starting from a pairwise
inequivalent accumulator, the result is pairwise inequivalent, drawn from the
accumulator and the column, keeps the accumulator, and covers every column
entry by an equivalent representative. -/
theorem hashInsert_fold_spec (column : List Value) : ∀ acc : List Value,
    List.Pairwise (fun a b => valueKeyEq a b = false) acc →
    (List.Pairwise (fun a b => valueKeyEq a b = false) (column.foldl hashInsert acc) ∧
     (∀ w ∈ column.foldl hashInsert acc, w ∈ acc ∨ w ∈ column) ∧
     (∀ w ∈ acc, w ∈ column.foldl hashInsert acc) ∧
     (∀ v ∈ column, ∃ w ∈ column.foldl hashInsert acc, valueKeyEq w v = true)) := by
  induction column with
  | nil =>
    intro acc hp
    exact ⟨hp, fun w hw => Or.inl hw, fun w hw => hw, by simp⟩
  | cons v rest ih =>
    intro acc hp
    by_cases hmem : acc.any (fun w => valueKeyEq w v) = true
    · have hstep : (v :: rest).foldl hashInsert acc = rest.foldl hashInsert acc := by
        simp [List.foldl_cons, hashInsert, hmem]
      obtain ⟨p1, p2, p3, p4⟩ := ih acc hp
      rw [hstep]
      refine ⟨p1, ?_, p3, ?_⟩
      · intro w hw
        rcases p2 w hw with hl | hr
        · exact Or.inl hl
        · exact Or.inr (List.mem_cons_of_mem _ hr)
      · intro u hu
        rcases List.mem_cons.mp hu with rfl | hu'
        · obtain ⟨w, hw, hwv⟩ := List.any_eq_true.mp hmem
          exact ⟨w, p3 w hw, hwv⟩
        · exact p4 u hu'
    · have hnone : ∀ w ∈ acc, valueKeyEq w v = false := by
        intro w hw
        by_contra hc
        exact hmem (List.any_eq_true.mpr ⟨w, hw, by simpa using hc⟩)
      have hstep : (v :: rest).foldl hashInsert acc = rest.foldl hashInsert (acc ++ [v]) := by
        simp [List.foldl_cons, hashInsert, hmem]
      have hp' : List.Pairwise (fun a b => valueKeyEq a b = false) (acc ++ [v]) := by
        rw [List.pairwise_append]
        exact ⟨hp, List.pairwise_singleton _ _, fun a ha b hb => by
          rw [List.mem_singleton.mp hb]; exact hnone a ha⟩
      obtain ⟨p1, p2, p3, p4⟩ := ih (acc ++ [v]) hp'
      rw [hstep]
      refine ⟨p1, ?_, ?_, ?_⟩
      · intro w hw
        rcases p2 w hw with hl | hr
        · rcases List.mem_append.mp hl with ha | hv
          · exact Or.inl ha
          · exact Or.inr (by simp [List.mem_singleton.mp hv])
        · exact Or.inr (List.mem_cons_of_mem _ hr)
      · intro w hw
        exact p3 w (List.mem_append_left _ hw)
      · intro u hu
        rcases List.mem_cons.mp hu with rfl | hu'
        · exact ⟨u, p3 u (List.mem_append_right _ (List.mem_singleton.mpr rfl)),
            valueKeyEq_refl u⟩
        · exact p4 u hu'

/-- Claim C7: given that column C exists, `distinctcount(C)` equals the
number of equivalence-class representatives of C's entries under the
equality-plus-hash relation of the `HashSet` (a pairwise inequivalent list
drawn from C that covers every entry); any two NaNs are identified while the
two infinities are not, and the column [NaN, NaN, +inf, -inf] counts 3. -/
theorem distinctcount_spec (t : Table) (name : String) (column : List Value)
    (h : t.get_column name = some column) :
    (∃ reps : List Value,
      t.distinctcount name = some reps.length ∧
      (∀ v ∈ column, ∃ w ∈ reps, valueKeyEq w v = true) ∧
      (∀ w ∈ reps, w ∈ column) ∧
      List.Pairwise (fun a b => valueKeyEq a b = false) reps) ∧
    (∀ p q, valueKeyEq (.Number (.nan p)) (.Number (.nan q)) = true) ∧
    valueKeyEq (.Number (.inf true)) (.Number (.inf false)) = false ∧
    nanTable.distinctcount "C" = some 3 := by
  refine ⟨?_, ?_, by with_unfolding_all decide, by with_unfolding_all decide⟩
  · obtain ⟨p1, p2, p3, p4⟩ := hashInsert_fold_spec column [] (List.Pairwise.nil)
    refine ⟨column.foldl hashInsert [], by simp [Table.distinctcount, h], p4, ?_, p1⟩
    intro w hw
    rcases p2 w hw with hl | hr
    · exact absurd hl (List.not_mem_nil w)
    · exact hr
  · intro p q
    simp [valueKeyEq, Value.beq, F64.isNan, Value.hashWrite]

/-- Witness for C7 at the NaN/infinity table. -/
theorem distinctcount_spec_witness :
    ∃ reps : List Value,
      nanTable.distinctcount "C" = some reps.length ∧
      (∀ v ∈ [Value.Number (.nan 0), Value.Number (.nan 1), Value.Number (.inf true),
          Value.Number (.inf false)], ∃ w ∈ reps, valueKeyEq w v = true) ∧
      (∀ w ∈ reps, w ∈ [Value.Number (.nan 0), Value.Number (.nan 1),
          Value.Number (.inf true), Value.Number (.inf false)]) ∧
      List.Pairwise (fun a b => valueKeyEq a b = false) reps :=
  (distinctcount_spec nanTable "C"
    [Value.Number (.nan 0), Value.Number (.nan 1), Value.Number (.inf true),
      Value.Number (.inf false)] (by with_unfolding_all decide)).1

/-- Claim C1 (refuted at the signed zeros — a genuine code bug): `0.0` and
`-0.0` are equal under `Value`'s equality (float `==` makes them equal and
neither is NaN), yet the hash implementation sends finite numbers through
`to_bits`, whose results differ (`0` versus `2^63`), so equal Values feed
different data to the hasher, violating the hash/equality consistency the
claim states and breaking the `HashSet`/`HashMap` key contract that
`distinctcount` relies on. -/
theorem value_eq_hash_inconsistent :
    Value.beq (.Number (.zero true)) (.Number (.zero false)) = true ∧
    Value.hashWrite (.Number (.zero true)) ≠ Value.hashWrite (.Number (.zero false)) ∧
    Value.hashWrite (.Number (.zero true)) = .u64 0 ∧
    Value.hashWrite (.Number (.zero false)) = .u64 (2 ^ 63) := by
  refine ⟨by with_unfolding_all decide, ?_, rfl, rfl⟩
  intro h
  have h1 : HashWrite.u64 0 = HashWrite.u64 (2 ^ 63) := h
  have h0 : (0 : Nat) = 2 ^ 63 := HashWrite.u64.inj h1
  exact absurd h0 (by norm_num)

end Dax
